import Mathlib

/-
Verification of the Derivtrader signal-generation engine.

The definitions below are a shallow embedding of the JavaScript source
(src/unnamed/part_001, with src/unnamed/part_000 and src/options_script.js
near-duplicates).  JavaScript numbers are modelled by the rationals; a
JavaScript value that would be NaN or undefined is modelled by an
Option-valued computation (comparisons against none are false, as every
comparison against NaN is false in JavaScript); a thrown TypeError is
modelled by Except.error.  Out-of-range or negative array indices, which
yield undefined in JavaScript, are modelled by an Option-returning index
function.
-/

namespace Derivtrader

/-- Mirrors the MAX_TICKS configuration constant (part_001 line 4). -/
def MAX_TICKS : Nat := 1000

/-- A tick as built by processTick: a quote and an epoch in seconds.
The symbol string is irrelevant to every claim and is omitted. -/
structure Tick where
  quote : ℚ
  epoch : ℤ
deriving DecidableEq

/-- An OHLC candle; the source field named open is rendered open_ here. -/
structure Candle where
  time : ℤ
  open_ : ℚ
  high : ℚ
  low : ℚ
  close : ℚ
deriving DecidableEq

/-- Direction of a single strategy or indicator result. -/
inductive Direction where
  | bullish
  | bearish
  | neutral
deriving DecidableEq

/-- A strategy result object: confidence, direction, reason. -/
structure StrategyResult where
  confidence : ℚ
  direction : Direction
  reason : String
deriving DecidableEq

/-- The neutral zero-confidence result every check falls back to. -/
def neutralRes : StrategyResult := ⟨0, .neutral, ""⟩

/-- Direction of the aggregated signal; NONE renders as the dashes
placeholder in the source. -/
inductive SigDir where
  | BUY
  | SELL
  | NONE
deriving DecidableEq

/-- The aggregated signal: direction and confidence (the confirmations
maps only feed the display and are dropped here). -/
structure Signal where
  direction : SigDir
  confidence : ℚ
deriving DecidableEq

/-- The mutable module-level state the claims touch: the tick buffer, the
candle series, the tradeHistory length and the shared lastSignalTime
timestamp (milliseconds). -/
structure AppState where
  tickData : List Tick
  historicalData : List Candle
  tradeCount : ℕ
  lastSignalTime : ℤ
deriving DecidableEq

/-- JavaScript array access a[i] for an integer index: a negative or
out-of-range index yields undefined, modelled as none. -/
def jsIdx {α : Type} (l : List α) (i : ℤ) : Option α :=
  if i < 0 then none else l[i.toNat]?

/-- JavaScript access into an array that may itself hold NaN entries
(modelled as none): out-of-range gives undefined, which behaves like NaN
in arithmetic and comparisons, so both collapse to none. -/
def jsIdxN (l : List (Option ℚ)) (i : ℤ) : Option ℚ :=
  ((jsIdx l i).getD none)

/-- Comparison a > b where either side may be NaN or undefined: false
unless both are genuine numbers (JavaScript semantics). -/
def oGt (a b : Option ℚ) : Bool :=
  match a, b with
  | some x, some y => decide (y < x)
  | _, _ => false

/-- Comparison a < b with NaN or undefined operands false. -/
def oLt (a b : Option ℚ) : Bool :=
  match a, b with
  | some x, some y => decide (x < y)
  | _, _ => false

/-- Comparison a <= b with NaN or undefined operands false. -/
def oLe (a b : Option ℚ) : Bool :=
  match a, b with
  | some x, some y => decide (x ≤ y)
  | _, _ => false

/-- Comparison a >= b with NaN or undefined operands false. -/
def oGe (a b : Option ℚ) : Bool :=
  match a, b with
  | some x, some y => decide (y ≤ x)
  | _, _ => false

/-- Push onto the end of a bounded buffer, evicting the front when the
length would exceed the bound; mirrors the push-then-shift idiom of
processTick (part_001 lines 177-180 and 200-203). -/
def pushBounded {α : Type} (l : List α) (x : α) (maxLen : Nat) : List α :=
  let l' := l ++ [x]
  if maxLen < l'.length then l'.tail else l'

/-- The minute bucket of a tick epoch: Math.floor(epoch / 60) * 60
(part_001 line 183); Int.fdiv is floor division, matching Math.floor. -/
def bucketOf (epoch : ℤ) : ℤ :=
  epoch.fdiv 60 * 60

/-- Same-bucket candle update (part_001 lines 187-190): high and low are
widened to the quote, close becomes the quote, open is untouched. -/
def updateCandle (c : Candle) (q : ℚ) : Candle :=
  { c with high := max c.high q, low := min c.low q, close := q }

/-- A freshly opened candle: all four prices equal the quote
(part_001 lines 193-199). -/
def newCandle (t : ℤ) (q : ℚ) : Candle :=
  ⟨t, q, q, q, q⟩

/-- The candle-merging step of processTick (part_001 lines 183-204): if
the last candle has the tick's bucket time it is updated in place,
otherwise a new candle is appended (bounded FIFO). -/
def ingestCandle (hist : List Candle) (bucket : ℤ) (q : ℚ) : List Candle :=
  match hist.getLast? with
  | some last =>
      if bucket = last.time then hist.dropLast ++ [updateCandle last q]
      else pushBounded hist (newCandle bucket q) MAX_TICKS
  | none => pushBounded hist (newCandle bucket q) MAX_TICKS

/-- The EMA loop body of calculateEMA (part_001 lines 416-418): at loop
index i the source reads ema[i - period], which is always the most
recently pushed element (ema holds i - period + 1 elements there), so the
loop is the last-value recurrence v = (x - prev) * m + prev. -/
def emaLoop (m : ℚ) (prev : ℚ) : List ℚ → List ℚ
  | [] => []
  | x :: xs =>
      let v := (x - prev) * m + prev
      v :: emaLoop m v xs

/-- calculateEMA (part_001 lines 409-421): a series shorter than the
period yields a same-length array of zeroes; otherwise the result starts
with the simple average of the first period values and continues with the
EMA recurrence over the remaining values.  Note the result has length
data.length - period + 1, not data.length. -/
def calculateEMA (period : Nat) (data : List ℚ) : List ℚ :=
  if data.length < period then List.replicate data.length 0
  else
    let multiplier : ℚ := 2 / ((period : ℚ) + 1)
    let seed : ℚ := (data.take period).sum / (period : ℚ)
    seed :: emaLoop multiplier seed (data.drop period)

/-- The consecutive close-to-close changes array of calculateRSI
(part_001 lines 426-429). -/
def changesOf : List ℚ → List ℚ
  | a :: b :: rest => (b - a) :: changesOf (b :: rest)
  | _ => []

/-- The Wilder-smoothing loop of calculateRSI (part_001 lines 446-459):
each change updates avgGain and avgLoss and emits 100 - 100/(1+rs),
where rs is 100 when avgLoss is exactly zero and avgGain/avgLoss
otherwise. -/
def rsiLoop (period : Nat) (avgGain avgLoss : ℚ) : List ℚ → List ℚ
  | [] => []
  | ch :: rest =>
      let gain : ℚ := if 0 < ch then ch else 0
      let loss : ℚ := if 0 < ch then 0 else -ch
      let ag : ℚ := (avgGain * ((period : ℚ) - 1) + gain) / (period : ℚ)
      let al : ℚ := (avgLoss * ((period : ℚ) - 1) + loss) / (period : ℚ)
      let rs : ℚ := if al = 0 then 100 else ag / al
      (100 - 100 / (1 + rs)) :: rsiLoop period ag al rest

/-- calculateRSI (part_001 lines 423-462) over a closing-price series:
fewer than period+1 closes yield a same-length array of 50s; otherwise
the first period slots are 50, the seed averages gains and losses over
the first period changes, and the remaining changes run through Wilder
smoothing. -/
def calculateRSI (period : Nat) (closes : List ℚ) : List ℚ :=
  if closes.length < period + 1 then List.replicate closes.length 50
  else
    let changes := changesOf closes
    let avgGain : ℚ :=
      ((changes.take period).map (fun c => if 0 < c then c else 0)).sum / (period : ℚ)
    let avgLoss : ℚ :=
      ((changes.take period).map (fun c => if 0 < c then 0 else -c)).sum / (period : ℚ)
    List.replicate period 50 ++ rsiLoop period avgGain avgLoss (changes.drop period)

/-- checkEMACross (part_001 lines 286-305): the last and second-to-last
entries of the period-20 and period-50 EMA arrays are compared; an access
past the front of an array yields undefined, making the comparison
false. -/
def checkEMACross (hist : List Candle) : StrategyResult :=
  if hist.length < 50 then neutralRes
  else
    let closes := hist.map Candle.close
    let ema20 := calculateEMA 20 closes
    let ema50 := calculateEMA 50 closes
    let currentEma20 := jsIdx ema20 ((ema20.length : ℤ) - 1)
    let currentEma50 := jsIdx ema50 ((ema50.length : ℤ) - 1)
    let prevEma20 := jsIdx ema20 ((ema20.length : ℤ) - 2)
    let prevEma50 := jsIdx ema50 ((ema50.length : ℤ) - 2)
    if oGt currentEma20 currentEma50 && oLe prevEma20 prevEma50 then
      ⟨75, .bullish, "EMA 20 crossed above EMA 50"⟩
    else if oLt currentEma20 currentEma50 && oGe prevEma20 prevEma50 then
      ⟨75, .bearish, "EMA 20 crossed below EMA 50"⟩
    else neutralRes

/-- checkRSI (part_001 lines 307-321): thresholds 70 and 30 on the last
RSI value.  The rsi array is nonempty whenever the guard passes, so the
fallback branch is unreachable. -/
def checkRSI (hist : List Candle) : StrategyResult :=
  if hist.length < 14 then neutralRes
  else
    let rsi := calculateRSI 14 (hist.map Candle.close)
    match jsIdx rsi ((rsi.length : ℤ) - 1) with
    | some r =>
        if 70 < r then ⟨70, .bearish, "RSI overbought"⟩
        else if r < 30 then ⟨70, .bullish, "RSI oversold"⟩
        else neutralRes
    | none => neutralRes

/-- checkPriceAction (part_001 lines 323-344): bullish or bearish
engulfing on the last two candles.  Both accesses are in range whenever
the guard passes, so the fallback branch is unreachable. -/
def checkPriceAction (hist : List Candle) : StrategyResult :=
  if hist.length < 3 then neutralRes
  else
    match jsIdx hist ((hist.length : ℤ) - 1), jsIdx hist ((hist.length : ℤ) - 2) with
    | some lastC, some prevC =>
        if prevC.close < prevC.open_ ∧ lastC.open_ < prevC.close ∧ prevC.open_ < lastC.close then
          ⟨65, .bullish, "Bullish engulfing pattern"⟩
        else if prevC.open_ < prevC.close ∧ prevC.close < lastC.open_ ∧ lastC.close < prevC.open_ then
          ⟨65, .bearish, "Bearish engulfing pattern"⟩
        else neutralRes
    | _, _ => neutralRes

/-- The macdLine of checkMACD (part_001 line 353): ema12.map((val, i) =>
val - ema26[i]).  The index i counts from the start of each returned
array, and ema26 is 14 entries shorter than ema12, so the subtraction
pairs values seeded at different candles and the last 14 entries read
past the end of ema26, producing NaN (none). -/
def macdLineOf (closes : List ℚ) : List (Option ℚ) :=
  let ema12 := calculateEMA 12 closes
  let ema26 := calculateEMA 26 closes
  (List.range ema12.length).map (fun i =>
    match ema12[i]?, ema26[i]? with
    | some v, some w => some (v - w)
    | _, _ => none)

/-- Sum with NaN propagation: the reduce of calculateEMA applied to a
source array that may hold NaN entries. -/
def nanSum (l : List (Option ℚ)) : Option ℚ :=
  l.foldl (fun acc x =>
    match acc, x with
    | some a, some b => some (a + b)
    | _, _ => none) (some 0)

/-- The emaLoop over NaN-carrying values: any NaN operand makes the
result NaN, and every later value stays NaN. -/
def emaLoopN (m : ℚ) (prev : Option ℚ) : List (Option ℚ) → List (Option ℚ)
  | [] => []
  | x :: xs =>
      let v : Option ℚ :=
        match x, prev with
        | some a, some p => some ((a - p) * m + p)
        | _, _ => none
      v :: emaLoopN m v xs

/-- calculateEMA applied to a NaN-carrying source array, as checkMACD
does for the signal line (part_001 line 354). -/
def calculateEMAN (period : Nat) (data : List (Option ℚ)) : List (Option ℚ) :=
  if data.length < period then List.replicate data.length (some 0)
  else
    let multiplier : ℚ := 2 / ((period : ℚ) + 1)
    let seed : Option ℚ := (nanSum (data.take period)).map (· / (period : ℚ))
    seed :: emaLoopN multiplier seed (data.drop period)

/-- checkMACD (part_001 lines 347-368): cross detection between the
misaligned macdLine and its period-9 EMA; every comparison involves the
last macdLine entry, which is NaN. -/
def checkMACD (hist : List Candle) : StrategyResult :=
  if hist.length < 26 then neutralRes
  else
    let closes := hist.map Candle.close
    let macdLine := macdLineOf closes
    let signalLine := calculateEMAN 9 macdLine
    let currentMacd := jsIdxN macdLine ((macdLine.length : ℤ) - 1)
    let currentSignal := jsIdxN signalLine ((signalLine.length : ℤ) - 1)
    let prevMacd := jsIdxN macdLine ((macdLine.length : ℤ) - 2)
    let prevSignal := jsIdxN signalLine ((signalLine.length : ℤ) - 2)
    if oGt currentMacd currentSignal && oLe prevMacd prevSignal then
      ⟨70, .bullish, "MACD crossed above signal line"⟩
    else if oLt currentMacd currentSignal && oGe prevMacd prevSignal then
      ⟨70, .bearish, "MACD crossed below signal line"⟩
    else neutralRes

/-- checkBollinger (part_001 lines 370-389): bands at two population
standard deviations around the 20-close mean.  The source compares
price against mean plus or minus 2*Math.sqrt(variance); the equivalent
sign-and-square test keeps the definition inside the rationals:
p > mean + 2*sqrt(var) holds exactly when p - mean > 0 and
(p - mean)^2 > 4*var. -/
def checkBollinger (hist : List Candle) : StrategyResult :=
  if hist.length < 20 then neutralRes
  else
    let closes := (hist.map Candle.close).drop (hist.length - 20)
    let mean : ℚ := closes.sum / (closes.length : ℚ)
    let variance : ℚ := (closes.map (fun v => (v - mean) ^ 2)).sum / (closes.length : ℚ)
    match jsIdx hist ((hist.length : ℤ) - 1) with
    | some lastC =>
        let p := lastC.close
        if 0 < p - mean ∧ 4 * variance < (p - mean) ^ 2 then
          ⟨70, .bearish, "Price above upper Bollinger band"⟩
        else if 0 < mean - p ∧ 4 * variance < (mean - p) ^ 2 then
          ⟨70, .bullish, "Price below lower Bollinger band"⟩
        else neutralRes
    | none => neutralRes

/-- checkVolume (part_001 lines 391-406): with fewer than 100 ticks the
result is neutral; otherwise the source reads
tickData[tickData.length - 101].quote, which throws a TypeError when the
buffer holds exactly 100 ticks (index -1 is undefined), modelled as
Except.error; with the reference tick in range, up-ticks and down-ticks
over the last 100 ticks are compared against a 1.5 factor. -/
def checkVolume (tickData : List Tick) : Except Unit StrategyResult :=
  if tickData.length < 100 then .ok neutralRes
  else
    match jsIdx tickData ((tickData.length : ℤ) - 101) with
    | none => .error ()
    | some ref =>
        let recentTicks := tickData.drop (tickData.length - 100)
        let upTicks := (recentTicks.filter (fun t => ref.quote < t.quote)).length
        let downTicks := (recentTicks.filter (fun t => t.quote < ref.quote)).length
        if (downTicks : ℚ) * (3 / 2) < (upTicks : ℚ) then
          .ok ⟨60, .bullish, "Strong buying pressure"⟩
        else if (upTicks : ℚ) * (3 / 2) < (downTicks : ℚ) then
          .ok ⟨60, .bearish, "Strong selling pressure"⟩
        else .ok neutralRes

/-- The surviving confirmations: results with strictly positive
confidence, exactly the entries generateSignal stores into its
confirmations maps (part_001 lines 227-256). -/
def confirmedOf (rs : List StrategyResult) : List StrategyResult :=
  rs.filter (fun r => 0 < r.confidence)

/-- The unweighted bullish count of generateSignal (part_001
lines 259-261). -/
def bullCount (rs : List StrategyResult) : ℕ :=
  ((confirmedOf rs).filter (fun r => r.direction = Direction.bullish)).length

/-- The unweighted bearish count of generateSignal (part_001
lines 263-265). -/
def bearCount (rs : List StrategyResult) : ℕ :=
  ((confirmedOf rs).filter (fun r => r.direction = Direction.bearish)).length

/-- The tallying tail of generateSignal (part_001 lines 258-277): counts
the bullish and bearish confirmations among the given results and maps
them to a final direction and confidence. -/
def generateSignalFrom (rs : List StrategyResult) : Signal :=
  let b := bullCount rs
  let s := bearCount rs
  let total := b + s
  if 0 < total then
    if s < b then ⟨.BUY, min 100 ((b : ℚ) / (total : ℚ) * 100)⟩
    else ⟨.SELL, min 100 ((s : ℚ) / (total : ℚ) * 100)⟩
  else ⟨.NONE, 0⟩

/-- The six strategy and indicator results generateSignal computes, in
source order (part_001 lines 227-256).  checkVolume may throw; the
exception escapes generateSignal, which has no handler in part_001, so
the result is an Except. -/
def strategyResults (hist : List Candle) (ticks : List Tick) :
    Except Unit (List StrategyResult) :=
  match checkVolume ticks with
  | .error e => .error e
  | .ok volumeSignal =>
      .ok [checkEMACross hist, checkRSI hist, checkPriceAction hist,
           checkMACD hist, checkBollinger hist, volumeSignal]

/-- generateSignal (part_001 lines 217-283): evaluate the six checks on
the current snapshot and tally them. -/
def generateSignal (hist : List Candle) (ticks : List Tick) :
    Except Unit Signal :=
  match strategyResults hist ticks with
  | .error e => .error e
  | .ok rs => .ok (generateSignalFrom rs)

/-- processTick (part_001 lines 169-215): push the tick into the bounded
tick buffer, merge it into the candle series, and, when more than 60000
ms have passed since lastSignalTime, run generateSignal and stamp
lastSignalTime with the wall-clock time.  When generateSignal throws
(checkVolume with exactly 100 buffered ticks) the assignment to
lastSignalTime on the following source line is skipped. -/
def processTick (st : AppState) (tick : Tick) (nowMs : ℤ) : AppState :=
  let td := pushBounded st.tickData tick MAX_TICKS
  let hist := ingestCandle st.historicalData (bucketOf tick.epoch) tick.quote
  let lst : ℤ :=
    if 60000 < nowMs - st.lastSignalTime then
      match generateSignal hist td with
      | .ok _ => nowMs
      | .error _ => st.lastSignalTime
    else st.lastSignalTime
  { st with tickData := td, historicalData := hist, lastSignalTime := lst }

/-- The decision executeTrade reaches for one attempt. -/
inductive TradeOutcome where
  | allowed
  | deniedCooldown
  | deniedLimit
deriving DecidableEq

/-- executeTrade (part_001 lines 503-546): a cooldown check against the
shared lastSignalTime denies and leaves the state untouched; otherwise
lastSignalTime is overwritten with now before the trade-count limit is
checked; an allowed attempt submits the order and appends to
tradeHistory (the successful-submission path is modelled). -/
def executeTrade (now : ℤ) (maxTrades : ℕ) (st : AppState) :
    TradeOutcome × AppState :=
  if now - st.lastSignalTime < 30000 then (.deniedCooldown, st)
  else
    let st1 := { st with lastSignalTime := now }
    if maxTrades ≤ st1.tradeCount then (.deniedLimit, st1)
    else (.allowed, { st1 with tradeCount := st1.tradeCount + 1 })

/-- Strict time ordering of a candle series, stated on the list of
bucket times. -/
def timesOrdered (l : List Candle) : Prop :=
  List.Chain' (· < ·) (l.map Candle.time)

/-- The OHLC well-formedness invariant of one candle: the high bounds
open, close and low from above and the low bounds them from below. -/
def candleWF (c : Candle) : Prop :=
  c.open_ ≤ c.high ∧ c.close ≤ c.high ∧ c.low ≤ c.high ∧
    c.low ≤ c.open_ ∧ c.low ≤ c.close

/-- A demonstration confirmation list: two bullish results with
confidences 70 and 60 and one bearish result with confidence 80. -/
def demoConfirmations : List StrategyResult :=
  [⟨70, .bullish, "a"⟩, ⟨60, .bullish, "b"⟩, ⟨80, .bearish, "c"⟩]

/-- C1: the aggregator tallies the non-zero-confidence results into
unweighted bullish and bearish counts; zero counts yield direction NONE
with confidence 0; otherwise the direction is BUY exactly when the
bullish count exceeds the bearish count and SELL otherwise (ties to
SELL), with confidence min(100, 100 * max(counts) / total); with 2
bullish and 1 bearish confirmations the result is BUY at confidence
100 * 2/3; generateSignal applies this tally to the snapshot's strategy
and indicator results. -/
theorem generateSignal_tally :
    (∀ rs : List StrategyResult, bullCount rs + bearCount rs = 0 →
      generateSignalFrom rs = ⟨.NONE, 0⟩) ∧
    (∀ rs : List StrategyResult, 0 < bullCount rs + bearCount rs →
      ((generateSignalFrom rs).direction = .BUY ↔ bearCount rs < bullCount rs) ∧
      ((generateSignalFrom rs).direction = .SELL ↔ bullCount rs ≤ bearCount rs) ∧
      (generateSignalFrom rs).confidence =
        min 100 (100 * ((max (bullCount rs) (bearCount rs) : ℕ) : ℚ) /
          ((bullCount rs : ℚ) + (bearCount rs : ℚ)))) ∧
    generateSignalFrom demoConfirmations = ⟨.BUY, 100 * 2 / 3⟩ ∧
    (∀ (hist : List Candle) (ticks : List Tick) (rs : List StrategyResult),
      strategyResults hist ticks = .ok rs →
      generateSignal hist ticks = .ok (generateSignalFrom rs)) := by
  refine ⟨?_, ?_, ?_, ?_⟩
  · intro rs h
    simp only [generateSignalFrom]
    rw [if_neg (by omega)]
  · intro rs h
    simp only [generateSignalFrom]
    rw [if_pos h]
    rcases lt_or_ge (bearCount rs) (bullCount rs) with hlt | hge
    · rw [if_pos hlt]
      refine ⟨by simp [hlt], by simp [Nat.not_le.mpr hlt], ?_⟩
      rw [Nat.max_eq_left hlt.le]
      push_cast
      congr 1
      ring
    · rw [if_neg (by omega)]
      refine ⟨by simpa using hge, by simpa using hge, ?_⟩
      rw [Nat.max_eq_right hge]
      push_cast
      congr 1
      ring
  · simp [demoConfirmations, generateSignalFrom, bullCount, bearCount,
      confirmedOf, List.filter, min_def]
    norm_num
  · intro hist ticks rs h
    simp only [generateSignal, h]

/-- Witness for C1: with two bullish and one bearish confirmation the
tally yields direction BUY exactly because 1 < 2. -/
theorem generateSignal_tally_witness :
    0 < bullCount demoConfirmations + bearCount demoConfirmations ∧
    ((generateSignalFrom demoConfirmations).direction = .BUY ↔
      bearCount demoConfirmations < bullCount demoConfirmations) := by
  refine ⟨?_, ((generateSignal_tally.2.1 demoConfirmations ?_).1)⟩ <;>
    simp [demoConfirmations, bullCount, bearCount, confirmedOf, List.filter]

/-- C10: whenever the tally emits BUY or SELL, the confidence lies in
[50, 100], equals 100 * max(counts) / total, and equals 50 only on a
bullish-bearish tie, which yields SELL. -/
theorem signal_confidence_range (rs : List StrategyResult)
    (h : (generateSignalFrom rs).direction ≠ .NONE) :
    50 ≤ (generateSignalFrom rs).confidence ∧
    (generateSignalFrom rs).confidence ≤ 100 ∧
    (generateSignalFrom rs).confidence =
      100 * ((max (bullCount rs) (bearCount rs) : ℕ) : ℚ) /
        ((bullCount rs : ℚ) + (bearCount rs : ℚ)) ∧
    ((generateSignalFrom rs).confidence = 50 →
      bullCount rs = bearCount rs ∧ (generateSignalFrom rs).direction = .SELL) := by
  have htot : 0 < bullCount rs + bearCount rs := by
    by_contra hc
    apply h
    have h0 : bullCount rs + bearCount rs = 0 := by omega
    have := generateSignal_tally.1 rs h0
    rw [this]
  set b := bullCount rs with hb
  set s := bearCount rs with hs
  have htq : (0 : ℚ) < (b : ℚ) + (s : ℚ) := by
    have : (0 : ℚ) < ((b + s : ℕ) : ℚ) := Nat.cast_pos.mpr htot
    push_cast at this
    linarith
  have hmaxle : ((max b s : ℕ) : ℚ) ≤ (b : ℚ) + (s : ℚ) := by
    have hn : max b s ≤ b + s := by omega
    exact_mod_cast hn
  have hsumle : (b : ℚ) + (s : ℚ) ≤ 2 * ((max b s : ℕ) : ℚ) := by
    have hn : b + s ≤ 2 * max b s := by omega
    exact_mod_cast hn
  have hconf : (generateSignalFrom rs).confidence =
      100 * ((max b s : ℕ) : ℚ) / ((b : ℚ) + (s : ℚ)) := by
    have h2 := (generateSignal_tally.2.1 rs htot).2.2
    rw [h2]
    refine min_eq_right ?_
    rw [div_le_iff₀ htq]
    nlinarith
  have hge50 : 50 ≤ (generateSignalFrom rs).confidence := by
    rw [hconf, le_div_iff₀ htq]
    nlinarith
  have hle100 : (generateSignalFrom rs).confidence ≤ 100 := by
    rw [hconf, div_le_iff₀ htq]
    nlinarith
  refine ⟨hge50, hle100, hconf, ?_⟩
  intro h50
  have htie : b = s := by
    rw [hconf] at h50
    rw [div_eq_iff (ne_of_gt htq)] at h50
    have hq : (2 : ℚ) * ((max b s : ℕ) : ℚ) = (b : ℚ) + (s : ℚ) := by linarith
    have h2 : 2 * max b s = b + s := by exact_mod_cast hq
    omega
  refine ⟨htie, ?_⟩
  simp only [generateSignalFrom, ← hb, ← hs]
  rw [if_pos (by omega), if_neg (by omega)]

/-- Witness for C10: the demonstration confirmations fire a non-NONE
signal whose confidence obeys the bounds. -/
theorem signal_confidence_range_witness :
    50 ≤ (generateSignalFrom demoConfirmations).confidence ∧
    (generateSignalFrom demoConfirmations).confidence ≤ 100 ∧
    (generateSignalFrom demoConfirmations).confidence =
      100 * (max (bullCount demoConfirmations) (bearCount demoConfirmations) : ℚ) /
        ((bullCount demoConfirmations : ℚ) + (bearCount demoConfirmations : ℚ)) ∧
    ((generateSignalFrom demoConfirmations).confidence = 50 →
      bullCount demoConfirmations = bearCount demoConfirmations ∧
      (generateSignalFrom demoConfirmations).direction = .SELL) := by
  refine signal_confidence_range demoConfirmations ?_
  simp [demoConfirmations, generateSignalFrom, bullCount, bearCount,
    confirmedOf, List.filter]

/-- C6: the trade gate denies (without submitting an order) any attempt
within 30000 ms of the timestamp the last allowed execution wrote, and
any attempt once the trade count has reached maxTrades; otherwise it
allows; an allowed execution stamps lastSignalTime with its own time, so
a second call 10 seconds later is cooldown-denied, as the concrete
two-call scenario shows. -/
theorem executeTrade_gate :
    (∀ (now : ℤ) (maxTrades : ℕ) (st : AppState),
      now - st.lastSignalTime < 30000 →
      executeTrade now maxTrades st = (.deniedCooldown, st)) ∧
    (∀ (now : ℤ) (maxTrades : ℕ) (st : AppState),
      maxTrades ≤ st.tradeCount →
      (executeTrade now maxTrades st).1 ≠ .allowed) ∧
    (∀ (now : ℤ) (maxTrades : ℕ) (st : AppState),
      30000 ≤ now - st.lastSignalTime → st.tradeCount < maxTrades →
      (executeTrade now maxTrades st).1 = .allowed ∧
      ((executeTrade now maxTrades st).2).lastSignalTime = now ∧
      ((executeTrade now maxTrades st).2).tradeCount = st.tradeCount + 1) ∧
    (∀ (now now' : ℤ) (maxTrades : ℕ) (st : AppState),
      (executeTrade now maxTrades st).1 = .allowed →
      now' - now < 30000 →
      (executeTrade now' maxTrades (executeTrade now maxTrades st).2).1 =
        .deniedCooldown) ∧
    ((executeTrade 30000 5 ⟨[], [], 0, 0⟩).1 = .allowed ∧
      (executeTrade 40000 5 (executeTrade 30000 5 ⟨[], [], 0, 0⟩).2).1 =
        .deniedCooldown) := by
  have hcool : ∀ (now : ℤ) (maxTrades : ℕ) (st : AppState),
      now - st.lastSignalTime < 30000 →
      executeTrade now maxTrades st = (.deniedCooldown, st) := by
    intro now maxTrades st hc
    simp only [executeTrade]
    rw [if_pos hc]
  have hallow : ∀ (now : ℤ) (maxTrades : ℕ) (st : AppState),
      30000 ≤ now - st.lastSignalTime → st.tradeCount < maxTrades →
      executeTrade now maxTrades st =
        (.allowed, { st with lastSignalTime := now, tradeCount := st.tradeCount + 1 }) := by
    intro now maxTrades st hc hl
    simp only [executeTrade]
    rw [if_neg (by omega), if_neg (by omega)]
  refine ⟨hcool, ?_, ?_, ?_, ?_⟩
  · intro now maxTrades st hl
    simp only [executeTrade]
    by_cases hc : now - st.lastSignalTime < 30000
    · rw [if_pos hc]
      simp
    · rw [if_neg hc, if_pos (by omega)]
      simp
  · intro now maxTrades st hc hl
    rw [hallow now maxTrades st hc hl]
    exact ⟨rfl, rfl, rfl⟩
  · intro now now' maxTrades st ha hc
    have hpass : ¬ now - st.lastSignalTime < 30000 := by
      intro hlt
      rw [hcool now maxTrades st hlt] at ha
      exact absurd ha (by simp)
    have hlim : st.tradeCount < maxTrades := by
      by_contra hge
      simp only [executeTrade] at ha
      rw [if_neg hpass, if_pos (by omega)] at ha
      exact absurd ha (by simp)
    have h2 := hcool now' maxTrades
      { st with tradeCount := st.tradeCount + 1, lastSignalTime := now }
      (by show now' - now < 30000; omega)
    rw [hallow now maxTrades st (by omega) hlim]
    show (executeTrade now' maxTrades
        { st with tradeCount := st.tradeCount + 1, lastSignalTime := now }).1 =
      TradeOutcome.deniedCooldown
    rw [h2]
  · constructor
    · rw [hallow 30000 5 ⟨[], [], 0, 0⟩ (by norm_num) (by norm_num)]
    · rw [hallow 30000 5 ⟨[], [], 0, 0⟩ (by norm_num) (by norm_num),
        hcool 40000 5 _ (by norm_num)]

/-- Witness for C6: a call ten seconds after the stamped time is
cooldown-denied with the state untouched. -/
theorem executeTrade_gate_witness :
    executeTrade 40000 5 ⟨[], [], 1, 30000⟩ =
      (.deniedCooldown, ⟨[], [], 1, 30000⟩) :=
  executeTrade_gate.1 40000 5 ⟨[], [], 1, 30000⟩ (by norm_num)

/-- C9: a limit-denied executeTrade call has already overwritten the
shared lastSignalTime before the limit check, so it still restarts the
30-second cooldown; and processTick writes the wall-clock time into the
same lastSignalTime field whenever its signal-generation timer fires and
the signal computation completes, after which any execution attempted
within 30000 ms of that recomputation is cooldown-denied. -/
theorem executeTrade_limitDenied_cooldown :
    (∀ (now : ℤ) (maxTrades : ℕ) (st : AppState),
      30000 ≤ now - st.lastSignalTime → maxTrades ≤ st.tradeCount →
      executeTrade now maxTrades st =
        (.deniedLimit, { st with lastSignalTime := now })) ∧
    (∀ (now now' : ℤ) (maxTrades : ℕ) (st : AppState),
      (executeTrade now maxTrades st).1 = .deniedLimit →
      now' - now < 30000 →
      (executeTrade now' maxTrades (executeTrade now maxTrades st).2).1 =
        .deniedCooldown) ∧
    (∀ (st : AppState) (tick : Tick) (nowMs : ℤ) (sig : Signal),
      60000 < nowMs - st.lastSignalTime →
      generateSignal
        (ingestCandle st.historicalData (bucketOf tick.epoch) tick.quote)
        (pushBounded st.tickData tick MAX_TICKS) = .ok sig →
      (processTick st tick nowMs).lastSignalTime = nowMs ∧
      (∀ (now' : ℤ) (maxTrades : ℕ),
        now' - nowMs < 30000 →
        (executeTrade now' maxTrades (processTick st tick nowMs)).1 =
          .deniedCooldown)) := by
  have hlim : ∀ (now : ℤ) (maxTrades : ℕ) (st : AppState),
      30000 ≤ now - st.lastSignalTime → maxTrades ≤ st.tradeCount →
      executeTrade now maxTrades st =
        (.deniedLimit, { st with lastSignalTime := now }) := by
    intro now maxTrades st hc hl
    simp only [executeTrade]
    rw [if_neg (by omega), if_pos (by simpa using hl)]
  refine ⟨hlim, ?_, ?_⟩
  · intro now now' maxTrades st hd hc
    have hpass : ¬ now - st.lastSignalTime < 30000 := by
      intro hlt
      simp only [executeTrade] at hd
      rw [if_pos hlt] at hd
      exact absurd hd (by simp)
    have hge : maxTrades ≤ st.tradeCount := by
      by_contra hltc
      simp only [executeTrade] at hd
      rw [if_neg hpass, if_neg (by simp; omega)] at hd
      exact absurd hd (by simp)
    rw [hlim now maxTrades st (by omega) hge]
    simp only [executeTrade]
    rw [if_pos (by omega)]
  · intro st tick nowMs sig htimer hok
    have hstamp : (processTick st tick nowMs).lastSignalTime = nowMs := by
      simp only [processTick]
      rw [if_pos htimer, hok]
    refine ⟨hstamp, ?_⟩
    intro now' maxTrades hc
    simp only [executeTrade]
    rw [if_pos (by rw [hstamp]; omega)]

/-- Witness for C9: from the initial state, a tick at wall-clock time
70000 fires the signal timer, the signal evaluates to NONE, and a trade
attempt at 80000 is cooldown-denied; a limit-denied call restamps the
cooldown. -/
theorem executeTrade_limitDenied_cooldown_witness :
    executeTrade 30000 0 ⟨[], [], 0, 0⟩ =
      (.deniedLimit, ⟨[], [], 0, 30000⟩) ∧
    (processTick ⟨[], [], 0, 0⟩ ⟨1, 0⟩ 70000).lastSignalTime = 70000 ∧
    (executeTrade 80000 5 (processTick ⟨[], [], 0, 0⟩ ⟨1, 0⟩ 70000)).1 =
      .deniedCooldown := by
  have h3 := executeTrade_limitDenied_cooldown.2.2
    ⟨[], [], 0, 0⟩ ⟨1, 0⟩ 70000 ⟨.NONE, 0⟩ (by norm_num) (by rfl)
  exact ⟨executeTrade_limitDenied_cooldown.1 30000 0 ⟨[], [], 0, 0⟩
      (by norm_num) (by norm_num),
    h3.1, h3.2 80000 5 (by norm_num)⟩

/-- Unfolding equation of ingestCandle on an empty series. -/
lemma ingestCandle_none {hist : List Candle} {bucket : ℤ} {q : ℚ}
    (hgl : hist.getLast? = none) :
    ingestCandle hist bucket q = pushBounded hist (newCandle bucket q) MAX_TICKS := by
  simp only [ingestCandle, hgl]

/-- Unfolding equation of ingestCandle on a nonempty series. -/
lemma ingestCandle_some {hist : List Candle} {last : Candle} {bucket : ℤ} {q : ℚ}
    (hgl : hist.getLast? = some last) :
    ingestCandle hist bucket q =
      if bucket = last.time then hist.dropLast ++ [updateCandle last q]
      else pushBounded hist (newCandle bucket q) MAX_TICKS := by
  simp only [ingestCandle, hgl]

/-- Membership in a bounded push comes from the old buffer or is the
pushed element. -/
lemma mem_of_mem_pushBounded {α : Type} {l : List α} {x c : α} {n : ℕ}
    (h : c ∈ pushBounded l x n) : c ∈ l ∨ c = x := by
  simp only [pushBounded] at h
  have hm : c ∈ l ++ [x] := by
    by_cases hlen : n < (l ++ [x]).length
    · rw [if_pos hlen] at h
      exact List.mem_of_mem_tail h
    · rwa [if_neg hlen] at h
  rcases List.mem_append.mp hm with h1 | h1
  · exact Or.inl h1
  · exact Or.inr (List.mem_singleton.mp h1)

/-- Updating a well-formed candle with any quote keeps it well-formed. -/
lemma candleWF_updateCandle {c : Candle} (q : ℚ) (h : candleWF c) :
    candleWF (updateCandle c q) := by
  obtain ⟨h1, _, h3, h4, _⟩ := h
  refine ⟨?_, ?_, ?_, ?_, ?_⟩ <;> simp only [updateCandle]
  · exact le_trans h1 (le_max_left _ _)
  · exact le_max_right _ _
  · exact le_trans (min_le_left _ _) (le_trans h3 (le_max_left _ _))
  · exact le_trans (min_le_left _ _) h4
  · exact min_le_right _ _

/-- A freshly opened candle is well-formed: all four prices coincide. -/
lemma candleWF_newCandle (t : ℤ) (q : ℚ) : candleWF (newCandle t q) :=
  ⟨le_refl q, le_refl q, le_refl q, le_refl q, le_refl q⟩

/-- C8: processTick preserves OHLC well-formedness of every candle in the
series, and a tick falling into the last candle's bucket rewrites exactly
that candle with high = max(high, quote), low = min(low, quote),
close = quote and open unchanged. -/
theorem processTick_ohlc_invariant (st : AppState) (tick : Tick) (nowMs : ℤ)
    (h : ∀ c ∈ st.historicalData, candleWF c) :
    (∀ c ∈ (processTick st tick nowMs).historicalData, candleWF c) ∧
    (∀ last, st.historicalData.getLast? = some last →
      bucketOf tick.epoch = last.time →
      (processTick st tick nowMs).historicalData =
        st.historicalData.dropLast ++
          [{ last with
              high := max last.high tick.quote,
              low := min last.low tick.quote,
              close := tick.quote }]) := by
  have hproj : (processTick st tick nowMs).historicalData =
      ingestCandle st.historicalData (bucketOf tick.epoch) tick.quote := rfl
  constructor
  · intro c hc
    rw [hproj] at hc
    cases hgl : st.historicalData.getLast? with
    | none =>
        rw [ingestCandle_none hgl] at hc
        rcases mem_of_mem_pushBounded hc with h1 | h1
        · exact h c h1
        · rw [h1]
          exact candleWF_newCandle _ _
    | some last =>
        rw [ingestCandle_some hgl] at hc
        have hlastmem : last ∈ st.historicalData := by
          have hmem : last ∈ st.historicalData.getLast? := by simp [hgl]
          rcases List.mem_getLast?_eq_getLast hmem with ⟨hne2, heq⟩
          rw [heq]
          exact List.getLast_mem hne2
        by_cases hb : bucketOf tick.epoch = last.time
        · rw [if_pos hb] at hc
          rcases List.mem_append.mp hc with h1 | h1
          · exact h c (List.Sublist.subset (List.dropLast_sublist _) h1)
          · rw [List.mem_singleton.mp h1]
            exact candleWF_updateCandle tick.quote (h last hlastmem)
        · rw [if_neg hb] at hc
          rcases mem_of_mem_pushBounded hc with h1 | h1
          · exact h c h1
          · rw [h1]
            exact candleWF_newCandle _ _
  · intro last hgl hb
    rw [hproj, ingestCandle_some hgl, if_pos hb]
    rfl

/-- Witness for C8: a same-bucket tick with quote 5 on a well-formed
one-candle series keeps every candle well-formed and rewrites the last
candle in place. -/
theorem processTick_ohlc_invariant_witness :
    (∀ c ∈ (processTick ⟨[], [⟨0, 1, 2, 1, 2⟩], 0, 0⟩ ⟨5, 30⟩ 0).historicalData,
      candleWF c) ∧
    (∀ last, ([⟨0, 1, 2, 1, 2⟩] : List Candle).getLast? = some last →
      bucketOf (30 : ℤ) = last.time →
      (processTick ⟨[], [⟨0, 1, 2, 1, 2⟩], 0, 0⟩ ⟨5, 30⟩ 0).historicalData =
        ([⟨0, 1, 2, 1, 2⟩] : List Candle).dropLast ++
          [{ last with
              high := max last.high 5,
              low := min last.low 5,
              close := (5 : ℚ) }]) := by
  refine processTick_ohlc_invariant ⟨[], [⟨0, 1, 2, 1, 2⟩], 0, 0⟩ ⟨5, 30⟩ 0 ?_
  intro c hc
  rw [List.mem_singleton.mp hc]
  refine ⟨?_, ?_, ?_, ?_, ?_⟩ <;> norm_num

/-- C3 counterexample: the claim that strict time ordering of the candle
series is preserved by processTick fails.  A series with buckets 0 and 60
and a tick from the old bucket 0 (epoch 5) yields an out-of-order series:
the code appends a new candle with the older bucket instead of extending
the latest candle. -/
theorem processTick_order_violation :
    timesOrdered ([⟨0, 1, 1, 1, 1⟩, ⟨60, 2, 2, 2, 2⟩] : List Candle) ∧
    (processTick ⟨[], [⟨0, 1, 1, 1, 1⟩, ⟨60, 2, 2, 2, 2⟩], 0, 0⟩
      ⟨3, 5⟩ 0).historicalData =
      [⟨0, 1, 1, 1, 1⟩, ⟨60, 2, 2, 2, 2⟩, ⟨0, 3, 3, 3, 3⟩] ∧
    ¬ timesOrdered (processTick ⟨[], [⟨0, 1, 1, 1, 1⟩, ⟨60, 2, 2, 2, 2⟩], 0, 0⟩
      ⟨3, 5⟩ 0).historicalData := by
  refine ⟨?_, ?_, ?_⟩
  · simp [timesOrdered, List.chain'_cons, List.chain'_singleton]
  · rfl
  · have he : (processTick ⟨[], [⟨0, 1, 1, 1, 1⟩, ⟨60, 2, 2, 2, 2⟩], 0, 0⟩
        ⟨3, 5⟩ 0).historicalData =
        [⟨0, 1, 1, 1, 1⟩, ⟨60, 2, 2, 2, 2⟩, ⟨0, 3, 3, 3, 3⟩] := rfl
    rw [he]
    simp [timesOrdered, List.chain'_cons, List.chain'_singleton]

/-- C3 amended: processTick preserves strict time ordering provided the
incoming tick's bucket is not older than the last candle's bucket (which
holds for every tick arriving in time order); a strictly older bucket
instead appends a new out-of-order candle, as the counterexample shows. -/
theorem processTick_preserves_order (st : AppState) (tick : Tick) (nowMs : ℤ)
    (hord : timesOrdered st.historicalData)
    (hlate : ∀ last, st.historicalData.getLast? = some last →
      last.time ≤ bucketOf tick.epoch) :
    timesOrdered (processTick st tick nowMs).historicalData := by
  have hproj : (processTick st tick nowMs).historicalData =
      ingestCandle st.historicalData (bucketOf tick.epoch) tick.quote := rfl
  rw [hproj]
  cases hgl : st.historicalData.getLast? with
  | none =>
      have hnil : st.historicalData = [] := by
        rwa [List.getLast?_eq_none_iff] at hgl
      rw [ingestCandle_none hgl, hnil]
      simp only [pushBounded, List.nil_append, List.length_singleton]
      rw [if_neg (by norm_num [MAX_TICKS])]
      exact List.chain'_singleton _
  | some last =>
      rw [ingestCandle_some hgl]
      have hne : st.historicalData ≠ [] := by
        intro he
        rw [he] at hgl
        simp at hgl
      have hsplit : st.historicalData.dropLast ++ [last] = st.historicalData :=
        List.dropLast_append_getLast? last hgl
      by_cases hb : bucketOf tick.epoch = last.time
      · rw [if_pos hb]
        have hmap2 : (st.historicalData.dropLast ++ [updateCandle last tick.quote]).map
            Candle.time = st.historicalData.map Candle.time := by
          conv_rhs => rw [← hsplit]
          rw [List.map_append, List.map_append]
          rfl
        unfold timesOrdered
        rw [hmap2]
        exact hord
      · rw [if_neg hb]
        have hlt : last.time < bucketOf tick.epoch :=
          lt_of_le_of_ne (hlate last hgl) (fun he => hb he.symm)
        have happ : List.Chain' (· < ·)
            ((st.historicalData ++ [newCandle (bucketOf tick.epoch) tick.quote]).map
              Candle.time) := by
          rw [List.map_append]
          refine List.chain'_append.mpr ⟨hord, List.chain'_singleton _, ?_⟩
          intro x hx y hy
          rw [List.getLast?_map, hgl] at hx
          have hx' : last.time = x := by simpa using hx
          have hy' : (newCandle (bucketOf tick.epoch) tick.quote).time = y := by
            simpa using hy
          rw [← hx', ← hy']
          exact hlt
        unfold timesOrdered
        simp only [pushBounded]
        by_cases hlen : MAX_TICKS <
            (st.historicalData ++ [newCandle (bucketOf tick.epoch) tick.quote]).length
        · rw [if_pos hlen, List.map_tail]
          exact happ.tail
        · rw [if_neg hlen]
          exact happ

/-- Witness for C3 amended: a tick in the newest bucket keeps the
two-candle series strictly ordered. -/
theorem processTick_preserves_order_witness :
    timesOrdered (processTick ⟨[], [⟨0, 1, 1, 1, 1⟩, ⟨60, 2, 2, 2, 2⟩], 0, 0⟩
      ⟨3, 65⟩ 0).historicalData := by
  refine processTick_preserves_order ⟨[], [⟨0, 1, 1, 1, 1⟩, ⟨60, 2, 2, 2, 2⟩], 0, 0⟩
    ⟨3, 65⟩ 0 ?_ ?_
  · simp [timesOrdered, List.chain'_cons, List.chain'_singleton]
  · intro last hgl
    have : last = ⟨60, 2, 2, 2, 2⟩ := by
      simp only [List.getLast?] at hgl
      simpa using hgl.symm
    rw [this]
    show (60 : ℤ) ≤ bucketOf 65
    decide

/-- C7: checkVolume with a tick buffer of exactly 100 ticks passes its
guard but reads tickData[-1].quote, throwing a TypeError (modelled as
Except.error) that generateSignal does not catch. -/
theorem checkVolume_throws_at_100 (td : List Tick) (h : td.length = 100) :
    checkVolume td = .error () := by
  simp only [checkVolume]
  rw [if_neg (by omega)]
  have hnone : jsIdx td ((td.length : ℤ) - 101) = none := by
    simp only [jsIdx]
    rw [if_pos (by omega)]
  rw [hnone]

/-- Witness for C7: a buffer of one hundred identical ticks makes
checkVolume throw. -/
theorem checkVolume_throws_at_100_witness :
    checkVolume (List.replicate 100 ⟨1, 0⟩) = .error () :=
  checkVolume_throws_at_100 (List.replicate 100 ⟨1, 0⟩) (by simp)

/-- The EMA loop emits one value per remaining input value. -/
lemma emaLoop_length (m : ℚ) : ∀ (l : List ℚ) (p : ℚ),
    (emaLoop m p l).length = l.length := by
  intro l
  induction l with
  | nil => intro p; rfl
  | cons x xs ih =>
      intro p
      simp only [emaLoop, List.length_cons, ih]

/-- calculateEMA on a sufficiently long series returns one seed plus one
value per input index from period onward. -/
lemma calculateEMA_length (period : Nat) (data : List ℚ)
    (h : period ≤ data.length) :
    (calculateEMA period data).length = data.length - period + 1 := by
  simp only [calculateEMA]
  rw [if_neg (by omega)]
  simp only [List.length_cons, emaLoop_length, List.length_drop]

/-- Each EMA loop output after the first follows the last-value
recurrence against the matching input value. -/
lemma emaLoop_getElem_succ (m : ℚ) : ∀ (l : List ℚ) (p : ℚ) (j : ℕ) (pv x : ℚ),
    (emaLoop m p l)[j]? = some pv → l[j + 1]? = some x →
    (emaLoop m p l)[j + 1]? = some ((x - pv) * m + pv) := by
  intro l
  induction l with
  | nil =>
      intro p j pv x h1 h2
      simp [emaLoop] at h1
  | cons y ys ih =>
      intro p j pv x h1 h2
      match j with
      | 0 =>
          simp only [emaLoop, List.getElem?_cons_zero, Option.some.injEq] at h1
          simp only [List.getElem?_cons_succ] at h2
          cases ys with
          | nil => simp at h2
          | cons z zs =>
              simp only [List.getElem?_cons_zero, Option.some.injEq] at h2
              simp only [emaLoop, List.getElem?_cons_succ, List.getElem?_cons_zero,
                Option.some.injEq]
              rw [h1, h2]
      | k + 1 =>
          simp only [emaLoop, List.getElem?_cons_succ] at h1 ⊢
          simp only [List.getElem?_cons_succ] at h2
          exact ih _ k pv x h1 h2

/-- C4 counterexample: calculateEMA does not return a same-length array.
With period 3 on the four-value series 1,2,3,4 it returns the two-value
array seed 2 followed by 3, not a four-value array padded at the front. -/
theorem calculateEMA_length_counterexample :
    calculateEMA 3 [1, 2, 3, 4] = [2, 3] ∧
    (calculateEMA 3 [1, 2, 3, 4]).length ≠ ([1, 2, 3, 4] : List ℚ).length := by
  have h : calculateEMA 3 [1, 2, 3, 4] = [2, 3] := by
    norm_num [calculateEMA, emaLoop]
  refine ⟨h, ?_⟩
  rw [h]
  simp

/-- C4 amended: for period ≤ n, calculateEMA returns an array of length
n - period + 1 (not n), whose entry 0 is the simple average of the first
period values and whose entry j+1 follows the recurrence
v = (price[period + j] - prev) * (2/(period+1)) + prev against entry j;
series shorter than the period yield a same-length zero array. -/
theorem calculateEMA_shape (period : Nat) (data : List ℚ)
    (hlen : period ≤ data.length) :
    (calculateEMA period data).length = data.length - period + 1 ∧
    (calculateEMA period data)[0]? =
      some ((data.take period).sum / (period : ℚ)) ∧
    (∀ (j : ℕ) (pv x : ℚ),
      (calculateEMA period data)[j]? = some pv →
      data[period + j]? = some x →
      (calculateEMA period data)[j + 1]? =
        some ((x - pv) * (2 / ((period : ℚ) + 1)) + pv)) ∧
    (∀ (short : List ℚ), short.length < period →
      calculateEMA period short = List.replicate short.length 0) := by
  have hunfold : calculateEMA period data =
      (data.take period).sum / (period : ℚ) ::
        emaLoop (2 / ((period : ℚ) + 1)) ((data.take period).sum / (period : ℚ))
          (data.drop period) := by
    simp only [calculateEMA]
    rw [if_neg (by omega)]
  refine ⟨calculateEMA_length period data hlen, ?_, ?_, ?_⟩
  · rw [hunfold]
    simp
  · intro j pv x h1 h2
    rw [hunfold] at h1 ⊢
    match j with
    | 0 =>
        simp only [List.getElem?_cons_zero, Option.some.injEq] at h1
        have hd : (data.drop period)[0]? = some x := by
          rw [List.getElem?_drop]
          simpa using h2
        cases hdrop : data.drop period with
        | nil => rw [hdrop] at hd; simp at hd
        | cons z zs =>
            rw [hdrop] at hd
            simp only [List.getElem?_cons_zero, Option.some.injEq] at hd
            simp only [List.getElem?_cons_succ, emaLoop, List.getElem?_cons_zero,
              Option.some.injEq]
            rw [h1, hd]
    | k + 1 =>
        simp only [List.getElem?_cons_succ] at h1 ⊢
        have hd : (data.drop period)[k + 1]? = some x := by
          rw [List.getElem?_drop]
          have : period + (k + 1) = period + k + 1 := by omega
          rw [this] at h2
          exact h2
        exact emaLoop_getElem_succ _ _ _ k pv x h1 hd
  · intro short hshort
    simp only [calculateEMA]
    rw [if_pos hshort]

/-- Witness for C4 amended: period 3 on the series 1,2,3,4 gives length
two, seed two, and recurrence value three at entry one. -/
theorem calculateEMA_shape_witness :
    (calculateEMA 3 [1, 2, 3, 4]).length = ([1, 2, 3, 4] : List ℚ).length - 3 + 1 ∧
    (calculateEMA 3 [1, 2, 3, 4])[0]? =
      some ((([1, 2, 3, 4] : List ℚ).take 3).sum / (3 : ℚ)) :=
  ⟨(calculateEMA_shape 3 [1, 2, 3, 4] (by simp)).1,
    (calculateEMA_shape 3 [1, 2, 3, 4] (by simp)).2.1⟩

/-- Unfolding equation of the Wilder loop on a cons cell, with the
let-bound averages spelled out. -/
lemma rsiLoop_cons (period : Nat) (ag al ch : ℚ) (rest : List ℚ) :
    rsiLoop period ag al (ch :: rest) =
      (100 - 100 / (1 +
        (if (al * ((period : ℚ) - 1) + (if 0 < ch then 0 else -ch)) / (period : ℚ) = 0
          then 100
          else ((ag * ((period : ℚ) - 1) + (if 0 < ch then ch else 0)) / (period : ℚ)) /
            ((al * ((period : ℚ) - 1) + (if 0 < ch then 0 else -ch)) / (period : ℚ))))) ::
      rsiLoop period
        ((ag * ((period : ℚ) - 1) + (if 0 < ch then ch else 0)) / (period : ℚ))
        ((al * ((period : ℚ) - 1) + (if 0 < ch then 0 else -ch)) / (period : ℚ))
        rest := rfl

/-- Every value the Wilder loop emits from nonnegative running averages
lies in [0, 100] (in fact below 100). -/
lemma rsiLoop_bounds (period : Nat) (hp : 1 ≤ period) :
    ∀ (chs : List ℚ) (ag al : ℚ), 0 ≤ ag → 0 ≤ al →
      ∀ v ∈ rsiLoop period ag al chs, 0 ≤ v ∧ v ≤ 100 := by
  intro chs
  induction chs with
  | nil =>
      intro ag al hag hal v hv
      simp [rsiLoop] at hv
  | cons ch rest ih =>
      intro ag al hag hal v hv
      rw [rsiLoop_cons] at hv
      have hpq : (0 : ℚ) < (period : ℚ) := by
        exact_mod_cast Nat.pos_of_ne_zero (by omega)
      have hp1 : (0 : ℚ) ≤ (period : ℚ) - 1 := by
        have h1 : (1 : ℚ) ≤ (period : ℚ) := by exact_mod_cast hp
        linarith
      have hgain : (0 : ℚ) ≤ if 0 < ch then ch else 0 := by
        split_ifs with hc
        · exact le_of_lt hc
        · exact le_refl 0
      have hloss : (0 : ℚ) ≤ if 0 < ch then 0 else -ch := by
        split_ifs with hc
        · exact le_refl 0
        · linarith [not_lt.mp hc]
      have hag2 : 0 ≤ (ag * ((period : ℚ) - 1) + (if 0 < ch then ch else 0)) / (period : ℚ) := by
        apply div_nonneg _ (le_of_lt hpq)
        have := mul_nonneg hag hp1
        linarith
      have hal2 : 0 ≤ (al * ((period : ℚ) - 1) + (if 0 < ch then 0 else -ch)) / (period : ℚ) := by
        apply div_nonneg _ (le_of_lt hpq)
        have := mul_nonneg hal hp1
        linarith
      rcases List.mem_cons.mp hv with hv | hv
      · set al2 := (al * ((period : ℚ) - 1) + (if 0 < ch then 0 else -ch)) / (period : ℚ) with hal2def
        set ag2 := (ag * ((period : ℚ) - 1) + (if 0 < ch then ch else 0)) / (period : ℚ) with hag2def
        set rs := if al2 = 0 then (100 : ℚ) else ag2 / al2 with hrsdef
        have hrs : (0 : ℚ) ≤ rs := by
          rw [hrsdef]
          split_ifs with h0
          · norm_num
          · exact div_nonneg hag2 hal2
        have h1rs : (0 : ℚ) < 1 + rs := by linarith
        have hdle : 100 / (1 + rs) ≤ 100 := by
          rw [div_le_iff₀ h1rs]
          nlinarith
        have hdgt : 0 < 100 / (1 + rs) := by positivity
        rw [hv]
        constructor <;> linarith
      · exact ih _ _ hag2 hal2 v hv

/-- With a zero running average loss and all-positive changes, every
value the Wilder loop emits equals 100 - 100/101. -/
lemma rsiLoop_allGains (period : Nat) :
    ∀ (chs : List ℚ), (∀ c ∈ chs, 0 < c) → ∀ (ag : ℚ),
      ∀ v ∈ rsiLoop period ag 0 chs, v = 100 - 100 / 101 := by
  intro chs
  induction chs with
  | nil =>
      intro hpos ag v hv
      simp [rsiLoop] at hv
  | cons ch rest ih =>
      intro hpos ag v hv
      have hch : 0 < ch := hpos ch (by simp)
      rw [rsiLoop_cons] at hv
      simp only [if_pos hch, zero_mul, zero_add, zero_div, if_true] at hv
      rcases List.mem_cons.mp hv with hv | hv
      · rw [hv]
        norm_num
      · exact ih (fun c hc => hpos c (by simp [hc])) _ v hv

/-- Unfolding equation of calculateRSI on a long-enough series. -/
lemma calculateRSI_eq (period : Nat) (closes : List ℚ)
    (h : ¬ closes.length < period + 1) :
    calculateRSI period closes =
      List.replicate period 50 ++ rsiLoop period
        (((changesOf closes).take period |>.map (fun c => if 0 < c then c else 0)).sum /
          (period : ℚ))
        (((changesOf closes).take period |>.map (fun c => if 0 < c then 0 else -c)).sum /
          (period : ℚ))
        ((changesOf closes).drop period) := by
  simp only [calculateRSI]
  rw [if_neg h]

/-- C2 counterexample: with all sampled deltas gains (avgLoss = 0) the
code emits 100 - 100/101 (about 99.0099), not exactly 100: the source
sets rs to the sentinel 100 instead of short-circuiting the formula. -/
theorem rsi_avgLossZero_not_100 :
    (∀ c ∈ changesOf [1, 2, 3, 4], 0 < c) ∧
    calculateRSI 2 [1, 2, 3, 4] = [50, 50, 100 - 100 / 101] ∧
    (100 - 100 / 101 : ℚ) ≠ 100 := by
  refine ⟨?_, ?_, by norm_num⟩
  · intro c hc
    have h : changesOf [1, 2, 3, 4] = ([1, 1, 1] : List ℚ) := by
      norm_num [changesOf]
    rw [h] at hc
    simp at hc
    rw [hc]
    norm_num
  · norm_num [calculateRSI, rsiLoop, changesOf, List.replicate]

/-- C2 amended: every value calculateRSI returns lies in [0, 100]; but
when all sampled deltas are gains (so the running average loss is zero)
the emitted values equal 100 - 100/101, not exactly 100. -/
theorem calculateRSI_bounds_and_allGains (period : Nat) (closes : List ℚ)
    (hp : 1 ≤ period) :
    (∀ v ∈ calculateRSI period closes, 0 ≤ v ∧ v ≤ 100) ∧
    (period + 1 ≤ closes.length →
      (∀ c ∈ changesOf closes, 0 < c) →
      ∀ v ∈ (calculateRSI period closes).drop period, v = 100 - 100 / 101) := by
  constructor
  · intro v hv
    by_cases hlen : closes.length < period + 1
    · simp only [calculateRSI] at hv
      rw [if_pos hlen] at hv
      have := List.eq_of_mem_replicate hv
      rw [this]
      norm_num
    · rw [calculateRSI_eq period closes hlen] at hv
      rcases List.mem_append.mp hv with hv | hv
      · have := List.eq_of_mem_replicate hv
        rw [this]
        norm_num
      · refine rsiLoop_bounds period hp _ _ _ ?_ ?_ v hv
        · apply div_nonneg _ (by positivity)
          apply List.sum_nonneg
          intro x hx
          rcases List.mem_map.mp hx with ⟨c, _, rfl⟩
          split_ifs with hc
          · exact le_of_lt hc
          · exact le_refl 0
        · apply div_nonneg _ (by positivity)
          apply List.sum_nonneg
          intro x hx
          rcases List.mem_map.mp hx with ⟨c, _, rfl⟩
          split_ifs with hc
          · exact le_refl 0
          · linarith [not_lt.mp hc]
  · intro hlen hpos v hv
    have hnot : ¬ closes.length < period + 1 := by omega
    rw [calculateRSI_eq period closes hnot] at hv
    have hdrop : (List.replicate period (50 : ℚ) ++ rsiLoop period
        (((changesOf closes).take period |>.map (fun c => if 0 < c then c else 0)).sum /
          (period : ℚ))
        (((changesOf closes).take period |>.map (fun c => if 0 < c then 0 else -c)).sum /
          (period : ℚ))
        ((changesOf closes).drop period)).drop period = rsiLoop period
        (((changesOf closes).take period |>.map (fun c => if 0 < c then c else 0)).sum /
          (period : ℚ))
        (((changesOf closes).take period |>.map (fun c => if 0 < c then 0 else -c)).sum /
          (period : ℚ))
        ((changesOf closes).drop period) := by
      have h2 := List.drop_left (List.replicate period (50 : ℚ))
        (rsiLoop period
          (((changesOf closes).take period |>.map (fun c => if 0 < c then c else 0)).sum /
            (period : ℚ))
          (((changesOf closes).take period |>.map (fun c => if 0 < c then 0 else -c)).sum /
            (period : ℚ))
          ((changesOf closes).drop period))
      rwa [List.length_replicate] at h2
    rw [hdrop] at hv
    have hal0 : (((changesOf closes).take period |>.map
        (fun c => if 0 < c then 0 else -c)).sum / (period : ℚ)) = 0 := by
      have hz : ∀ x ∈ ((changesOf closes).take period |>.map
          (fun c => if 0 < c then 0 else -c)), x = 0 := by
        intro x hx
        rcases List.mem_map.mp hx with ⟨c, hcmem, rfl⟩
        have hcpos : 0 < c := hpos c (List.mem_of_mem_take hcmem)
        rw [if_pos hcpos]
      rw [List.sum_eq_zero hz, zero_div]
    rw [hal0] at hv
    refine rsiLoop_allGains period _ ?_ _ v hv
    intro c hc
    exact hpos c (List.mem_of_mem_drop hc)

/-- Witness for C2 amended: on the rising series 1,2,3,4 with period 2
the bounds hold and the post-seed values equal 100 - 100/101. -/
theorem calculateRSI_bounds_and_allGains_witness :
    (∀ v ∈ calculateRSI 2 [1, 2, 3, 4], 0 ≤ v ∧ v ≤ 100) ∧
    (2 + 1 ≤ ([1, 2, 3, 4] : List ℚ).length →
      (∀ c ∈ changesOf [1, 2, 3, 4], 0 < c) →
      ∀ v ∈ (calculateRSI 2 [1, 2, 3, 4]).drop 2, v = 100 - 100 / 101) :=
  calculateRSI_bounds_and_allGains 2 [1, 2, 3, 4] (by norm_num)

/-- The misaligned MACD line has as many entries as the fast EMA. -/
lemma macdLineOf_length (closes : List ℚ) :
    (macdLineOf closes).length = (calculateEMA 12 closes).length := by
  simp [macdLineOf]

/-- Every macdLine entry from the length of the slow EMA onward reads
past the end of ema26 and is NaN. -/
lemma macdLineOf_getElem_none (closes : List ℚ) (i : ℕ)
    (hi : i < (calculateEMA 12 closes).length)
    (h26 : (calculateEMA 26 closes).length ≤ i) :
    (macdLineOf closes)[i]? = some none := by
  simp only [macdLineOf]
  rw [List.getElem?_map]
  rw [List.getElem?_range hi]
  simp only [Option.map_some']
  have hnone : (calculateEMA 26 closes)[i]? = none := List.getElem?_eq_none h26
  rw [hnone]
  cases (calculateEMA 12 closes)[i]? <;> rfl

/-- C5: checkMACD never reports a cross.  The macdLine subtracts the
period-26 EMA from the period-12 EMA by position in the returned arrays,
which start at different candles and differ in length by 14, so the last
macdLine entry always reads past the end of ema26 and is NaN; both cross
comparisons against NaN are false and the result is neutral with
confidence 0 for every input series. -/
theorem checkMACD_always_neutral (hist : List Candle) :
    checkMACD hist = neutralRes := by
  by_cases hn : hist.length < 26
  · simp only [checkMACD]
    rw [if_pos hn]
  · have hlen : 26 ≤ hist.length := by omega
    have hclen : (hist.map Candle.close).length = hist.length := List.length_map hist Candle.close
    have h12 : (calculateEMA 12 (hist.map Candle.close)).length = hist.length - 12 + 1 := by
      rw [calculateEMA_length 12 (hist.map Candle.close) (by omega), hclen]
    have h26 : (calculateEMA 26 (hist.map Candle.close)).length = hist.length - 26 + 1 := by
      rw [calculateEMA_length 26 (hist.map Candle.close) (by omega), hclen]
    have hml : (macdLineOf (hist.map Candle.close)).length = hist.length - 12 + 1 := by
      rw [macdLineOf_length, h12]
    have hcur : jsIdxN (macdLineOf (hist.map Candle.close))
        (((macdLineOf (hist.map Candle.close)).length : ℤ) - 1) = none := by
      simp only [jsIdxN, jsIdx]
      rw [if_neg (by rw [hml]; omega)]
      have htn : (((macdLineOf (hist.map Candle.close)).length : ℤ) - 1).toNat =
          hist.length - 12 := by
        rw [hml]
        omega
      rw [htn]
      rw [macdLineOf_getElem_none (hist.map Candle.close) (hist.length - 12)
        (by omega) (by omega)]
      rfl
    simp only [checkMACD]
    rw [if_neg hn, hcur]
    simp [oGt, oLt]

/-- A concrete check of C5 on a 26-candle rising series: even there the
result is neutral. -/
theorem checkMACD_neutral_on_26 :
    checkMACD ((List.range 26).map
      (fun i => ⟨60 * (i : ℤ), (i : ℚ), (i : ℚ), (i : ℚ), (i : ℚ)⟩)) = neutralRes :=
  checkMACD_always_neutral ((List.range 26).map
    (fun i => ⟨60 * (i : ℤ), (i : ℚ), (i : ℚ), (i : ℚ), (i : ℚ)⟩))

end Derivtrader
